import Mathlib

/-!
Shallow embedding of the Miniproyecto2-Back movie-streaming backend
(Express + Mongoose controllers) and proofs about its behaviour.

Conventions used throughout:
* JavaScript numbers are modelled as `ℚ` (exact rationals); `toFixed(2)`
  followed by `parseFloat` is modelled as exact rounding to 2 decimals.
* Missing / falsy string fields of a JSON request body are modelled as `""`
  (the empty string is the only falsy non-missing string in JS), optional
  numeric fields as `Option ℚ`, and the falsy number `0` is kept explicit.
* A Mongoose `save()` runs the schema validators; a throwing `save()` is
  modelled as `Except.error (500, msg)` (the controllers catch and answer 500),
  leaving the persisted state unchanged.
* `Date.now()` / `new Date()` are threaded explicitly as a `now : Nat`
  (epoch milliseconds); `crypto.randomBytes` tokens are threaded as arguments.
-/

attribute [local semireducible] Rat.mul Rat.add Rat.sub Rat.inv

namespace Backend

/-- JS `a || b` on an optional string: `null`/`undefined`/`""` fall through. -/
def jsOr (a : Option String) (b : String) : String :=
  match a with
  | some s => if s = "" then b else s
  | none => b

/-- JS `String.prototype.split` with a one-character separator: always one
part more than there are separators (so `"a@".split("@") = ["a", ""]`). -/
def jsSplit (sep : Char) : List Char → List (List Char)
  | [] => [[]]
  | c :: rest =>
    match jsSplit sep rest with
    | [] => [[]]
    | p :: ps => if c = sep then [] :: p :: ps else (c :: p) :: ps

/-- JS `String.prototype.trim`: strip whitespace from both ends. -/
def jsTrim (cs : List Char) : List Char :=
  ((cs.dropWhile Char.isWhitespace).reverse.dropWhile Char.isWhitespace).reverse

/-- `trim` on `String` (the Mongoose `trim: true` setter). -/
def strTrim (s : String) : String := String.mk (jsTrim s.toList)

/-- `toLowerCase` (the Mongoose `lowercase: true` setter / the `es` check). -/
def strLower (s : String) : String := String.mk (s.toList.map Char.toLower)

/-- `toUpperCase` (fallback label of `labelFromLang`). -/
def strUpper (s : String) : String := String.mk (s.toList.map Char.toUpper)

/-- Model of `bcrypt.hash` (external library): a deterministic injective tag.
The exact hash is irrelevant to the controllers; only `bcrypt.compare`
recognising it matters. -/
def hashPw (p : String) : String := "Aa1$bcrypt/" ++ p

/-- Model of `bcrypt.compare candidate storedHash`. -/
def bcryptCompare (candidate stored : String) : Bool :=
  stored == hashPw candidate

/-- `parseFloat(x.toFixed(2))`: round to 2 decimal places, ties rounding up
(ECMAScript `toFixed` picks the larger candidate on ties).  `Rat.floor` is the
executable floor on `ℚ`, so `Rat.floor (x + 1/2)` is round-half-up. -/
def round2 (q : ℚ) : ℚ := ((Rat.floor (q * 100 + 1 / 2) : ℤ) : ℚ) / 100

deriving instance DecidableEq for Except

/-! ## Movie / Comment data model (src/api/models/movies.ts) -/

/-- Embedded comment subdocument (`commentSchema`).  `id` models the
Mongo-generated subdocument `_id`. -/
structure Comment where
  id : Nat
  user : String
  text : String
  rating : ℚ
deriving Repr, DecidableEq

/-- Movie document (`movieSchema`). `image` is `Option` because a document can
be built with the field absent (validation then fails at save time). -/
structure Movie where
  title : String
  genre : Option String
  author : Option String
  rating : ℚ
  videoUrl : String
  image : Option String
  comments : List Comment
deriving Repr, DecidableEq

/-- Validator of `commentSchema`: `user`/`text` required,
`rating` has `min: 1, max: 5` (Mongoose validators, not clamps). -/
def commentValid (c : Comment) : Bool :=
  c.user != "" && c.text != "" && decide (1 ≤ c.rating) && decide (c.rating ≤ 5)

/-- Validator of `movieSchema`: `title`, `videoUrl`, `image` required,
`rating` has `min: 0, max: 5`, embedded comments validated recursively. -/
def movieValid (m : Movie) : Bool :=
  m.title != "" && m.videoUrl != "" &&
  (match m.image with
   | some s => s != ""
   | none => false) &&
  decide (0 ≤ m.rating) && decide (m.rating ≤ 5) &&
  m.comments.all commentValid

/-- `movie.save()`: runs the schema validators; a validation failure throws,
which the controllers turn into a 500 response. -/
def movieSave (m : Movie) : Except (Nat × String) Movie :=
  if movieValid m then .ok m else .error (500, "ValidationError")

/-- `comments.reduce((sum, c) => sum + (c.rating || 0), 0) / comments.length`,
then `parseFloat(avg.toFixed(2))`.  (`c.rating || 0` equals `c.rating` for
every rational.) -/
def recalcRating (comments : List Comment) : ℚ :=
  round2 ((comments.map Comment.rating).sum / (comments.length : ℚ))

/-! ## addComment / deleteComment (src/api/controller/movie.controller.ts) -/

/-- `addComment` on an already-found movie document (the 404 branch of
`findById` is orthogonal to the stored-comment behaviour).  `cid` models the
fresh subdocument `_id` Mongo assigns to the pushed comment; `rating? = none`
models an absent `rating` in the body (`rating ?? 3`). -/
def addComment (m : Movie) (cid : Nat) (user text : String) (rating? : Option ℚ) :
    Except (Nat × String) Movie :=
  if user = "" || text = "" then
    .error (400, "user and text required")
  else
    movieSave { m with
      comments := m.comments ++ [⟨cid, user, text, rating?.getD 3⟩],
      rating :=
        if (m.comments ++ [(⟨cid, user, text, rating?.getD 3⟩ : Comment)]).length > 0 then
          recalcRating (m.comments ++ [⟨cid, user, text, rating?.getD 3⟩])
        else m.rating }

/-- The stringified-id comparison used by `deleteComment` (`cid === commentId`
over `_id.toString()`), modelled as equality of the numeric subdocument ids. -/
def commentIdIs (commentId : Nat) (c : Comment) : Bool := c.id == commentId

/-- `deleteComment` on an already-found movie document: 404 when no comment
matches, otherwise filter out all matching comments and recompute the rating
(0 when the list became empty). -/
def deleteComment (m : Movie) (commentId : Nat) : Except (Nat × String) Movie :=
  match m.comments.find? (commentIdIs commentId) with
  | none => .error (404, "Comment not found")
  | some _ =>
    movieSave { m with
      comments := m.comments.filter (fun c => !commentIdIs commentId c),
      rating :=
        if (m.comments.filter (fun c => !commentIdIs commentId c)).length > 0 then
          recalcRating (m.comments.filter (fun c => !commentIdIs commentId c))
        else 0 }

/-- One comment-mutating request against a movie. -/
inductive MovieOp where
  | add (cid : Nat) (user text : String) (rating? : Option ℚ)
  | del (commentId : Nat)

/-- Apply a request; a failed request (error response) leaves the stored
document unchanged. -/
def applyMovieOp (m : Movie) : MovieOp → Movie
  | .add cid user text rating? =>
    match addComment m cid user text rating? with
    | .ok m' => m'
    | .error _ => m
  | .del commentId =>
    match deleteComment m commentId with
    | .ok m' => m'
    | .error _ => m

/-- The spec's rating invariant: the stored `Movie.rating` is the 2-decimal
rounded mean of the current comment ratings, and exactly 0 with no comments. -/
def ratingInvariant (m : Movie) : Prop :=
  (m.comments = [] → m.rating = 0) ∧
  (m.comments ≠ [] → m.rating = recalcRating m.comments)

/-! ## importFromPexels (src/api/controller/movie.controller.ts) -/

/-- One entry of the Pexels `/videos/search` response, restricted to the
fields the controller reads: `video_files[i].link`, `video_pictures[i].picture`,
`user.name`, `id`. -/
structure PexVideo where
  videoFiles : List String
  pictures : List String
  userName : Option String
  pexelsId : Option Nat
deriving Repr, DecidableEq

/-- The Movie document built for a non-duplicate entry
(`title = v.user?.name || v.id?.toString() || "Pexels video"`, rating 0, empty
comments; the `favorite: false` field is not in `movieSchema` and is dropped). -/
def mkImportMovie (v : PexVideo) (link : String) : Movie :=
  { title := jsOr v.userName (jsOr (v.pexelsId.map toString) "Pexels video")
    genre := some "Desconocido"
    author := jsOr v.userName "Pexels"
    rating := 0
    videoUrl := link
    image := v.pictures.head?
    comments := [] }

/-- The import loop.  For each video: take the first video-file link (skip when
absent), skip when a movie with that `videoUrl` already exists, otherwise save.
A throwing `save()` (schema validation failure, e.g. a missing picture) aborts
the loop: the catalog keeps the documents already saved and the response is a
500 (`none` count) instead of the completion count. -/
def importGo : List Movie → List PexVideo → Nat → List Movie × Option Nat
  | cat, [], n => (cat, some n)
  | cat, v :: vs, n =>
    match v.videoFiles.head? with
    | none => importGo cat vs n
    | some link =>
      if cat.any (fun m => m.videoUrl == link) then importGo cat vs n
      else
        let doc := mkImportMovie v link
        if movieValid doc then importGo (cat ++ [doc]) vs (n + 1)
        else (cat, none)

/-- `importFromPexels` applied to an already-fetched response body. -/
def importFromPexels (cat : List Movie) (videos : List PexVideo) :
    List Movie × Option Nat :=
  importGo cat videos 0

/-- No two movies of the catalog share a video URL. -/
def noDupUrls (cat : List Movie) : Prop := (cat.map Movie.videoUrl).Nodup

/-! ## User data model (src/api/models/users.ts) -/

/-- User document (`UserSchema`).  `id` models the Mongo `_id`; `favorites`
holds movie ids; the two reset fields are the nullable pair. -/
structure User where
  id : Nat
  firstName : String
  lastName : String
  age : Nat
  email : String
  password : String
  resetPasswordToken : Option String
  resetPasswordExpires : Option Nat
  favorites : List Nat
deriving Repr, DecidableEq

/-- A character of the JS `\w` class (`[A-Za-z0-9_]`, here Unicode-alnum). -/
def wordChar (c : Char) : Bool := c.isAlphanum || c = '_'

/-- A character of `[\w-]`. -/
def wordDashChar (c : Char) : Bool := wordChar c || c = '-'

/-- A character allowed in `[^\s@]` (schema email regex classes). -/
def noWsAtChar (c : Char) : Bool := !c.isWhitespace && c != '@'

/-- `emailRegex = /^[^\s@]+@[^\s@]+\.[^\s@]+$/` of the user schema: exactly one
`@`, non-empty local part, and a `.` strictly inside the domain part. -/
def schemaEmailOk (s : String) : Bool :=
  match jsSplit '@' s.toList with
  | [a, b] =>
    !a.isEmpty && a.all noWsAtChar && b.all noWsAtChar &&
    decide (3 ≤ b.length) && (b.drop 1).dropLast.contains '.'
  | _ => false

/-- The special characters demanded by the schema's `passwordRegex`. -/
def pwSpecialChars : List Char :=
  ['!', '@', '#', '$', '%', '^', '&', '*', '(', ')', '_', '+', '-', '=',
   '[', ']', '\x7b', '\x7d', ';', '\'', ':', '"', '\\', '|', ',', '.',
   '<', '>', '/', '?']

/-- `passwordRegex`: at least one lowercase, uppercase, digit and special
character, and total length at least 8. -/
def passwordOk (s : String) : Bool :=
  s.toList.any Char.isLower && s.toList.any Char.isUpper &&
  s.toList.any Char.isDigit && s.toList.any (fun c => pwSpecialChars.contains c) &&
  decide (8 ≤ s.length)

/-- `UserSchema` validators, applied to the document as stored (names trimmed,
email lowercased by the setters; the password is validated before the
pre-save hash replaces it, so `pw` here is the plaintext). -/
def userValid (firstName lastName : String) (age : Nat) (email pw : String) : Bool :=
  firstName != "" && lastName != "" && decide (0 ≤ age) && schemaEmailOk email && passwordOk pw

/-- Replace the first element satisfying `p` by its image under `f`
(the Mongoose pattern "find a document, mutate it, `save()`"). -/
def updateFirstP (p : User → Bool) (f : User → User) : List User → List User
  | [] => []
  | u :: us => if p u then f u :: us else u :: updateFirstP p f us

/-! ## User controller (src/api/controller/user.controller.ts) -/

/-- The response shape of the user controllers: updated collection,
HTTP status, message. -/
abbrev UserResult : Type := List User × Nat × String

/-- `createUser`: requires all five body fields to be truthy (`!age` is true
for the number 0), answers 409 when `findOne({ email })` hits, otherwise saves
(schema validators on the trimmed/lowercased values, then the pre-save hook
hashes the password).  `newId` models the generated `_id`. -/
def createUser (users : List User) (firstName lastName : String) (age : Nat)
    (email password : String) (newId : Nat) : UserResult :=
  if firstName = "" || lastName = "" || age = 0 || email = "" || password = "" then
    (users, 400, "Por favor rellenar todos los campos")
  else
    match users.find? (fun u => u.email == email) with
    | some _ => (users, 409, "Correo ya registrado")
    | none =>
      let fn := strTrim firstName
      let ln := strTrim lastName
      let em := strLower email
      if userValid fn ln age em password then
        (users ++ [⟨newId, fn, ln, age, em, hashPw password, none, none, []⟩],
         201, "Usuario creado con éxito")
      else
        (users, 500, "Error al crear usuario")

/-- The `updateUser` controller's own email check,
`/^[\w-.]+@([\w-]+\.)+[\w-]{2,4}$/`: a non-empty `[\w-.]` local part, one `@`,
one or more non-empty `[\w-]` labels each followed by `.`, and a final
`[\w-]{2,4}` label. -/
def ctrlEmailOk (s : String) : Bool :=
  match jsSplit '@' s.toList with
  | [a, b] =>
    !a.isEmpty && a.all (fun c => wordDashChar c || c = '.') &&
    (let parts := jsSplit '.' b
     decide (2 ≤ parts.length) &&
     parts.dropLast.all (fun p => !p.isEmpty && p.all wordDashChar) &&
     (let tld := (parts.getLast?).getD []
      decide (2 ≤ tld.length) && decide (tld.length ≤ 4) && tld.all wordDashChar))
  | _ => false

/-- The subset of `req.body` fields `findByIdAndUpdate` can set on a user
(`some v` means the client sent the field). -/
structure UserUpdates where
  firstName : Option String := none
  lastName : Option String := none
  age : Option Nat := none
  email : Option String := none
  password : Option String := none
  resetPasswordToken : Option String := none
  resetPasswordExpires : Option Nat := none
  favorites : Option (List Nat) := none
deriving Repr, DecidableEq

/-- Apply an update document to a user (each sent field overwrites). -/
def applyUpdates (upd : UserUpdates) (u : User) : User :=
  { u with
    firstName := upd.firstName.getD u.firstName
    lastName := upd.lastName.getD u.lastName
    age := upd.age.getD u.age
    email := upd.email.getD u.email
    password := upd.password.getD u.password
    resetPasswordToken :=
      match upd.resetPasswordToken with
      | some t => some t
      | none => u.resetPasswordToken
    resetPasswordExpires :=
      match upd.resetPasswordExpires with
      | some e => some e
      | none => u.resetPasswordExpires
    favorites := upd.favorites.getD u.favorites }

/-- The `findByIdAndUpdate` step of `updateUser`. -/
def updateUserApply (users : List User) (uid : Nat) (upd : UserUpdates) : UserResult :=
  match users.find? (fun u => u.id == uid) with
  | none => (users, 404, "Usuario no encontrado")
  | some _ =>
    (updateFirstP (fun u => u.id == uid) (applyUpdates upd) users,
     200, "Usuario actualizado con éxito")

/-- `updateUser`: hashes a truthy `password` field, rejects an invalid truthy
`email` field with 400, then `findByIdAndUpdate` on the rest. -/
def updateUser (users : List User) (uid : Nat) (upd : UserUpdates) : UserResult :=
  let upd :=
    match upd.password with
    | some p => if p != "" then { upd with password := some (hashPw p) } else upd
    | none => upd
  match upd.email with
  | some e =>
    if e != "" && !ctrlEmailOk e then
      (users, 400, "Formato de correo inválido")
    else
      updateUserApply users uid upd
  | none => updateUserApply users uid upd

/-- `deleteUser`: `findByIdAndDelete`. -/
def deleteUser (users : List User) (uid : Nat) : UserResult :=
  match users.find? (fun u => u.id == uid) with
  | none => (users, 404, "Usuario no encontrado")
  | some _ => (users.eraseP (fun u => u.id == uid), 200, "Usuario eliminado correctamente")

/-- `recoverPassword`: finds the user by email and stores the fresh `token`
together with a 1-hour expiry (`now + 3600000` ms).  `token` models
`crypto.randomBytes(32).toString("hex")`, `now` models `Date.now()`. -/
def recoverPassword (users : List User) (email token : String) (now : Nat) : UserResult :=
  if email = "" then (users, 400, "Email requerido")
  else
    match users.find? (fun u => u.email == email) with
    | none => (users, 404, "Usuario no encontrado")
    | some _ =>
      (updateFirstP (fun u => u.email == email)
        (fun u => { u with resetPasswordToken := some token,
                           resetPasswordExpires := some (now + 3600000) }) users,
       200, "Correo de recuperación enviado")

/-- The Mongo query of `resetPassword`:
`{ resetPasswordToken: token, resetPasswordExpires: { $gt: new Date() } }`
(a missing expiry field never satisfies `$gt`). -/
def resetQueryPred (token : String) (now : Nat) (u : User) : Bool :=
  u.resetPasswordToken == some token &&
  (match u.resetPasswordExpires with
   | some e => decide (now < e)
   | none => false)

/-- `resetPassword`: 400 when either body field is falsy or no user matches
the token+future-expiry query; otherwise replaces the password (hashed by the
pre-save hook) and clears both reset fields together. -/
def resetPassword (users : List User) (now : Nat) (token newPassword : String) : UserResult :=
  if token = "" || newPassword = "" then
    (users, 400, "Token y nueva contraseña requeridos")
  else
    match users.find? (resetQueryPred token now) with
    | none => (users, 400, "Token inválido o expirado")
    | some _ =>
      (updateFirstP (resetQueryPred token now)
        (fun u => { u with password := hashPw newPassword,
                           resetPasswordToken := none,
                           resetPasswordExpires := none }) users,
       200, "Contraseña cambiada con éxito")

/-- `toggleFavorite`: validates user then movie existence, then removes the
movie id from the favorites array when present (`splice` at the found index =
erase the first occurrence) or pushes it at the end when absent. -/
def toggleFavorite (users : List User) (movieIds : List Nat) (userId movieId : Nat) :
    UserResult :=
  match users.find? (fun u => u.id == userId) with
  | none => (users, 404, "Usuario no encontrado")
  | some u =>
    if movieIds.contains movieId then
      if u.favorites.contains movieId then
        (updateFirstP (fun w => w.id == userId)
          (fun w => { w with favorites := w.favorites.erase movieId }) users,
         200, "Película eliminada de favoritos")
      else
        (updateFirstP (fun w => w.id == userId)
          (fun w => { w with favorites := w.favorites ++ [movieId] }) users,
         200, "Película añadida a favoritos")
    else (users, 404, "Película no encontrada")

/-! ## Auth controller (src/api/controller/auth.controller.ts) -/

/-- `loginUser` (state is never mutated, so only status and message are
modelled; the issued JWT is orthogonal to the claims). -/
def loginUser (users : List User) (email password : String) : Nat × String :=
  if email = "" || password = "" then (400, "Email and password are required")
  else
    match users.find? (fun u => u.email == email) with
    | none => (401, "Invalid credentials")
    | some u =>
      if bcryptCompare password u.password then (200, "Login successful")
      else (401, "Invalid credentials")

/-- The spec's reset-pair invariant: token and expiry are both set or both
absent. -/
def pairInv (u : User) : Prop :=
  u.resetPasswordToken.isSome = u.resetPasswordExpires.isSome

instance pairInvDecidable (u : User) : Decidable (pairInv u) :=
  inferInstanceAs (Decidable (_ = _))

/-- One state-mutating request of the password/favorites flows (the
client-controlled profile update `updateUser` is deliberately separate: it is
the operation that can break the reset-pair invariant). -/
inductive UserOp where
  | create (firstName lastName : String) (age : Nat) (email password : String) (newId : Nat)
  | recover (email token : String) (now : Nat)
  | reset (now : Nat) (token newPassword : String)
  | toggle (movieIds : List Nat) (userId movieId : Nat)
  | delete (uid : Nat)

/-- Apply a request to the user collection (responses discarded). -/
def applyUserOp (users : List User) : UserOp → List User
  | .create fn ln age em pw newId => (createUser users fn ln age em pw newId).1
  | .recover em tok now => (recoverPassword users em tok now).1
  | .reset now tok npw => (resetPassword users now tok npw).1
  | .toggle movieIds uid mid => (toggleFavorite users movieIds uid mid).1
  | .delete uid => (deleteUser users uid).1

/-! ## Auth middleware (src/middlewares/auth.ts) -/

/-- Outcome of the `verifyToken` middleware: an error response, or the
request continues with the decoded payload attached to `req.user`. -/
inductive AuthOutcome where
  | reject (status : Nat) (message : String)
  | allow (payload : String)
deriving Repr, DecidableEq

/-- `authHeader.split(" ")[1]` (an absent element behaves like the empty
token: `jwt.verify` fails on it). -/
def bearerToken (header : String) : String :=
  String.mk (((jsSplit ' ' header.toList).get? 1).getD [])

/-- `authHeader.startsWith("Bearer ")`. -/
def hasBearerScheme (header : String) : Bool :=
  header.toList.take 7 == "Bearer ".toList

/-- `verifyToken`: 403 when the header is absent or not `Bearer `-prefixed;
otherwise `jwt.verify` (modelled by the oracle `jwtVerify`, `none` = throw on
bad signature or expiry) decides between 401 and passing the payload on. -/
def verifyToken (header : Option String) (jwtVerify : String → Option String) :
    AuthOutcome :=
  match header with
  | none => .reject 403 "Access denied. No token provided."
  | some h =>
    if !hasBearerScheme h then .reject 403 "Access denied. No token provided."
    else
      match jwtVerify (bearerToken h) with
      | some payload => .allow payload
      | none => .reject 401 "Invalid or expired token"

/-! ## Subtitle resolution (src/api/utils/subtitles.util.ts) -/

/-- A subtitle track of the API response (`default?` modelled as a plain
`Bool`, `false` for the absent field). -/
structure SubtitleItem where
  lang : String
  label : String
  src : String
  default : Bool
deriving Repr, DecidableEq

/-- A character matched by `[A-Za-z-]`. -/
def langChar (c : Char) : Bool :=
  ('A' ≤ c && c ≤ 'Z') || ('a' ≤ c && c ≤ 'z') || c = '-'

/-- `labelFromLang`: the fixed code→native-name map, uppercased code
otherwise. -/
def labelFromLang (lang : String) : String :=
  if lang == "es" then "Español"
  else if lang == "en" then "English"
  else if lang == "fr" then "Français"
  else if lang == "de" then "Deutsch"
  else if lang == "it" then "Italiano"
  else if lang == "pt" then "Português"
  else if lang == "pt-BR" then "Português (Brasil)"
  else strUpper lang

/-- The 14 ECMAScript regex syntax characters: a movie id containing none of
them is interpolated as a run of literal characters. -/
def regexMetaChar (c : Char) : Bool :=
  c = '^' || c = '$' || c = '\\' || c = '.' || c = '*' || c = '+' || c = '?' ||
  c = '(' || c = ')' || c = '[' || c = ']' || c = '\x7b' || c = '\x7d' || c = '|'

/-- What the regex atom `.` matches (any character except a line
terminator). -/
def dotMatches (c : Char) : Bool :=
  !(c = '\n' || c = '\r' || c = '\u2028' || c = '\u2029')

/-- One interpolated movie-id character as a regex atom: `.` is the
wildcard, every other character matches itself.  (This is the regex
semantics of ids built from literal characters and dots; ids using the
remaining metacharacters of `regexMetaChar` are outside the model and no
theorem below quantifies over them.) -/
def patChar (pc c : Char) : Bool :=
  if pc = '.' then dotMatches c else pc == c

/-- Match the interpolated movie id, atom by atom (each atom consumes
exactly one character), returning the unconsumed rest of the filename. -/
def patPrefixMatches : List Char → List Char → Option (List Char)
  | [], cs => some cs
  | _ :: _, [] => none
  | pc :: ps, c :: cs => if patChar pc c then patPrefixMatches ps cs else none

/-- The anchored tail `\.([A-Za-z-]+)\.vtt$` of the compiled regex, applied
to what remains of the filename: a literal dot, the captured non-empty
`[A-Za-z-]+` language (which cannot contain a dot), a literal `.vtt`, end. -/
def langSuffix (rest : List Char) : Option String :=
  match rest with
  | '.' :: rest2 =>
    let lang := rest2.take (rest2.length - 4)
    if rest2 == lang ++ ".vtt".toList && !lang.isEmpty && lang.all langChar then
      some (String.mk lang)
    else none
  | _ => none

/-- `filename.match(new RegExp("^" + movieId + "\\.([A-Za-z-]+)\\.vtt$"))`:
the movie id is interpolated into the pattern UNESCAPED, so its characters
act as regex atoms (in particular `.` is a wildcard), not as literal text. -/
def matchSub (movieId filename : String) : Option String :=
  match patPrefixMatches movieId.toList filename.toList with
  | some rest => langSuffix rest
  | none => none

/-- Modelled from the spec: "files matching `<movieId>.<lang>.vtt`" read as
the literal filename pattern — the filename is exactly the movie id, a dot,
a non-empty `[A-Za-z-]+` language code, and `.vtt`.  Compared with the
source's `matchSub` by the theorems below. -/
def specMatchSub (movieId filename : String) : Option String :=
  if filename.toList.take movieId.toList.length = movieId.toList then
    langSuffix (filename.toList.drop movieId.toList.length)
  else none

/-- The track built for a matched file. -/
def mkTrack (filename lang : String) : SubtitleItem :=
  ⟨lang, labelFromLang lang, "/subtitles/" ++ filename, false⟩

/-- The track list before the default flag is assigned. -/
def scanTracks (movieId : String) (entries : List String) : List SubtitleItem :=
  entries.filterMap (fun fn => (matchSub movieId fn).map (mkTrack fn))

/-- `tracks[idx].default = true` for a given index. -/
def markAt : Nat → List SubtitleItem → List SubtitleItem
  | _, [] => []
  | 0, t :: ts => { t with default := true } :: ts
  | n + 1, t :: ts => t :: markAt n ts

/-- `esIdx >= 0 ? esIdx : 0`: the index of the first Spanish track, else 0. -/
def defaultIdx (tracks : List SubtitleItem) : Nat :=
  match tracks.findIdx? (fun t => strLower t.lang == "es") with
  | some i => i
  | none => 0

/-- `buildSubtitlesForResponse`, over an explicit directory listing
(`dirExists` models `fs.existsSync(dir)`, `entries` models
`fs.readdirSync(dir)`). -/
def buildSubtitlesForResponse (movieId : String) (dirExists : Bool)
    (entries : List String) : List SubtitleItem :=
  if !dirExists then []
  else
    let tracks := scanTracks movieId entries
    match tracks with
    | [] => []
    | _ :: _ => markAt (defaultIdx tracks) tracks

/-! ## Sample documents (used by the concrete witnesses and counterexamples) -/

/-- A schema-valid movie with no comments. -/
def movieM0 : Movie := ⟨"T", none, none, 0, "url", some "img", []⟩

/-- A schema-valid user whose favorites list is `[1, 2]`. -/
def user7 : User := ⟨7, "A", "B", 20, "a@b.c", hashPw "Abcdef1$", none, none, [1, 2]⟩

end Backend

namespace Backend

/-! ## Supporting lemmas -/

/-- The executable `Rat.floor` agrees with the `Int.floor` of the order
structure. -/
theorem ratFloor_intCast (q : ℚ) : Rat.floor q = ⌊q⌋ := by
  rw [Rat.floor_def', Rat.floor_def]

/-- `round2` maps `[1, 5]` into `[1, 5]`. -/
theorem round2_mem {q : ℚ} (h1 : 1 ≤ q) (h5 : q ≤ 5) :
    1 ≤ round2 q ∧ round2 q ≤ 5 := by
  have hfl : Rat.floor (q * 100 + 1 / 2) = ⌊q * 100 + 1 / 2⌋ := ratFloor_intCast _
  have hlo : (100 : ℤ) ≤ ⌊q * 100 + 1 / 2⌋ := by
    rw [Int.le_floor]; push_cast; linarith
  have hhi : ⌊q * 100 + 1 / 2⌋ ≤ 500 := by
    have hlt : ⌊q * 100 + 1 / 2⌋ < 501 := by rw [Int.floor_lt]; push_cast; linarith
    omega
  have hloQ : (100 : ℚ) ≤ (⌊q * 100 + 1 / 2⌋ : ℚ) := by exact_mod_cast hlo
  have hhiQ : (⌊q * 100 + 1 / 2⌋ : ℚ) ≤ 500 := by exact_mod_cast hhi
  constructor
  · unfold round2
    rw [hfl, le_div_iff₀ (by norm_num : (0 : ℚ) < 100)]
    linarith
  · unfold round2
    rw [hfl, div_le_iff₀ (by norm_num : (0 : ℚ) < 100)]
    linarith

/-- A comment accepted by the schema validator has its rating in `[1, 5]`. -/
theorem commentValid_bounds {c : Comment} (h : commentValid c = true) :
    1 ≤ c.rating ∧ c.rating ≤ 5 := by
  simp only [commentValid, Bool.and_eq_true, decide_eq_true_eq] at h
  exact ⟨h.1.2, h.2⟩

/-- The recomputed mean of schema-valid ratings stays in `[1, 5]`. -/
theorem recalcRating_mem {l : List Comment} (hne : l ≠ [])
    (hall : ∀ c ∈ l, 1 ≤ c.rating ∧ c.rating ≤ 5) :
    1 ≤ recalcRating l ∧ recalcRating l ≤ 5 := by
  have hlen : 0 < l.length := List.length_pos.mpr hne
  have hlenQ : (0 : ℚ) < (l.length : ℚ) := by exact_mod_cast hlen
  have hsum_le : (l.map Comment.rating).sum ≤ (l.map Comment.rating).length • (5 : ℚ) :=
    List.sum_le_card_nsmul _ _ (by
      intro x hx
      obtain ⟨c, hc, rfl⟩ := List.mem_map.mp hx
      exact (hall c hc).2)
  have hsum_ge : (l.map Comment.rating).length • (1 : ℚ) ≤ (l.map Comment.rating).sum :=
    List.card_nsmul_le_sum _ _ (by
      intro x hx
      obtain ⟨c, hc, rfl⟩ := List.mem_map.mp hx
      exact (hall c hc).1)
  rw [List.length_map, nsmul_eq_mul] at hsum_le hsum_ge
  have hmean1 : 1 ≤ (l.map Comment.rating).sum / (l.length : ℚ) := by
    rw [le_div_iff₀ hlenQ]; linarith
  have hmean5 : (l.map Comment.rating).sum / (l.length : ℚ) ≤ 5 := by
    rw [div_le_iff₀ hlenQ]; linarith
  exact round2_mem hmean1 hmean5

end Backend

namespace Backend

/-- Anatomy of a successful `addComment`: the stored document has the comment
appended (with `rating ?? 3`) and the 2-decimal mean as its rating. -/
theorem addComment_ok_shape {m m' : Movie} {cid : Nat} {u t : String} {r? : Option ℚ}
    (h : addComment m cid u t r? = .ok m') :
    m'.comments = m.comments ++ [⟨cid, u, t, r?.getD 3⟩] ∧
    m'.rating = recalcRating m'.comments ∧
    movieValid m' = true := by
  have hlen : (m.comments ++ [(⟨cid, u, t, r?.getD 3⟩ : Comment)]).length > 0 := by simp
  unfold addComment movieSave at h
  rw [if_pos hlen] at h
  split at h
  · exact absurd h (by simp)
  · split at h
    · next hvalid =>
      cases h
      exact ⟨rfl, rfl, hvalid⟩
    · exact absurd h (by simp)

/-- Anatomy of a successful `deleteComment`: matching comments are filtered
out and the rating is the recomputed mean, or 0 on an empty result. -/
theorem deleteComment_ok_shape {m m' : Movie} {cidq : Nat}
    (h : deleteComment m cidq = .ok m') :
    m'.comments = m.comments.filter (fun c => !commentIdIs cidq c) ∧
    (m'.comments = [] → m'.rating = 0) ∧
    (m'.comments ≠ [] → m'.rating = recalcRating m'.comments) := by
  unfold deleteComment movieSave at h
  split at h
  · exact absurd h (by simp)
  · by_cases hpos : (m.comments.filter (fun c => !commentIdIs cidq c)).length > 0
    · rw [if_pos hpos] at h
      split at h
      · cases h
        refine ⟨rfl, ?_, fun _ => rfl⟩
        intro hnil
        have hnil' : List.filter (fun c => !commentIdIs cidq c) m.comments = [] := hnil
        rw [hnil'] at hpos
        simp at hpos
      · exact absurd h (by simp)
    · rw [if_neg hpos] at h
      split at h
      · cases h
        refine ⟨rfl, fun _ => rfl, ?_⟩
        intro hne
        exact absurd (List.length_pos.mpr hne) hpos
      · exact absurd h (by simp)

/-- Every single request preserves the rating invariant (failed requests do
not change the document at all). -/
theorem ratingInvariant_step (m : Movie) (op : MovieOp) (h : ratingInvariant m) :
    ratingInvariant (applyMovieOp m op) := by
  cases op with
  | add cid u t r? =>
    cases hres : addComment m cid u t r? with
    | error e => simpa only [applyMovieOp, hres] using h
    | ok m' =>
      obtain ⟨hc, hr, _⟩ := addComment_ok_shape hres
      have : applyMovieOp m (.add cid u t r?) = m' := by
        simp only [applyMovieOp, hres]
      rw [this]
      exact ⟨fun hnil => absurd hnil (by simp [hc]), fun _ => hr⟩
  | del cidq =>
    cases hres : deleteComment m cidq with
    | error e => simpa only [applyMovieOp, hres] using h
    | ok m' =>
      obtain ⟨_, h0, hr⟩ := deleteComment_ok_shape hres
      have : applyMovieOp m (.del cidq) = m' := by
        simp only [applyMovieOp, hres]
      rw [this]
      exact ⟨h0, hr⟩

/-- C2: for every sequence of comment additions and deletions starting from a
movie with no comments and rating 0, the stored rating always equals the
2-decimal-rounded arithmetic mean of the current comment ratings, and is
exactly 0 whenever the comment list is empty. -/
theorem movieRating_invariant_foldl (m : Movie) (ops : List MovieOp)
    (h0 : m.comments = []) (h1 : m.rating = 0) :
    ratingInvariant (ops.foldl applyMovieOp m) := by
  have hbase : ratingInvariant m := ⟨fun _ => h1, fun hne => absurd h0 hne⟩
  clear h0 h1
  induction ops generalizing m with
  | nil => exact hbase
  | cons op ops ih => exact ih _ (ratingInvariant_step m op hbase)

/-- Witness for C2: the spec's own scenario (ratings 5 then 3, then delete
the first comment) run against the sample movie. -/
theorem movieRating_invariant_foldl_witness :
    ratingInvariant (List.foldl applyMovieOp movieM0
      [MovieOp.add 1 "a" "good" (some 5), MovieOp.add 2 "b" "ok" (some 3),
       MovieOp.del 1]) :=
  movieRating_invariant_foldl movieM0 _ rfl rfl

/-- C1 fails on the code: `addComment` with rating 0 or 7 does not store a
clamped comment — the Mongoose `min`/`max` validators make `save()` throw, so
the request is rejected with a 500 response and nothing is stored. -/
theorem addComment_no_clamp_counterexample :
    addComment movieM0 1 "a" "good" (some 0) = .error (500, "ValidationError") ∧
    addComment movieM0 1 "a" "good" (some 7) = .error (500, "ValidationError") := by
  constructor <;> decide

/-- C1 amended: an out-of-range rating is rejected (500 validation error, no
comment stored), an omitted rating behaves exactly like rating 3, and an
in-range rating is stored unchanged together with the recomputed mean. -/
theorem addComment_range_behavior (m : Movie) (cid : Nat) (u t : String) (r : ℚ)
    (hm : movieValid m = true) (hu : u ≠ "") (ht : t ≠ "") :
    ((r < 1 ∨ 5 < r) → addComment m cid u t (some r) = .error (500, "ValidationError")) ∧
    addComment m cid u t none = addComment m cid u t (some 3) ∧
    (1 ≤ r → r ≤ 5 →
      addComment m cid u t (some r) =
        .ok { m with
              comments := m.comments ++ [⟨cid, u, t, r⟩],
              rating := recalcRating (m.comments ++ [⟨cid, u, t, r⟩]) }) := by
  have hcond : ¬(u = "" || t = "") = true := by simp [hu, ht]
  have hlen : (m.comments ++ [(⟨cid, u, t, r⟩ : Comment)]).length > 0 := by simp
  refine ⟨?_, rfl, ?_⟩
  · intro hr
    have hCV : commentValid ⟨cid, u, t, r⟩ = false := by
      rcases hr with hr | hr
      · have : ¬ (1 ≤ r) := not_le.mpr hr
        simp [commentValid, this]
      · have : ¬ (r ≤ 5) := not_le.mpr hr
        simp [commentValid, this]
    have hMV : movieValid { m with
        comments := m.comments ++ [⟨cid, u, t, r⟩],
        rating := recalcRating (m.comments ++ [⟨cid, u, t, r⟩]) } = false := by
      simp [movieValid, List.all_append, hCV]
    simp only [addComment, movieSave, Option.getD_some]
    rw [if_neg hcond, if_pos hlen, if_neg (by simp [hMV])]
  · intro h1 h5
    have hparts := hm
    simp only [movieValid, Bool.and_eq_true, decide_eq_true_eq] at hparts
    obtain ⟨⟨⟨⟨⟨htitle, hurl⟩, himg⟩, hr0⟩, hr5⟩, hcomments⟩ := hparts
    have hCV : commentValid ⟨cid, u, t, r⟩ = true := by
      simp [commentValid, hu, ht, h1, h5]
    have hall : ∀ c ∈ m.comments ++ [(⟨cid, u, t, r⟩ : Comment)],
        1 ≤ c.rating ∧ c.rating ≤ 5 := by
      intro c hc
      rcases List.mem_append.mp hc with hc | hc
      · exact commentValid_bounds (List.all_eq_true.mp hcomments c hc)
      · rcases List.mem_singleton.mp hc with rfl
        exact ⟨h1, h5⟩
    have hrec := recalcRating_mem (l := m.comments ++ [⟨cid, u, t, r⟩]) (by simp) hall
    have hMV : movieValid { m with
        comments := m.comments ++ [⟨cid, u, t, r⟩],
        rating := recalcRating (m.comments ++ [⟨cid, u, t, r⟩]) } = true := by
      simp only [movieValid, Bool.and_eq_true, decide_eq_true_eq, List.all_append]
      refine ⟨⟨⟨⟨⟨htitle, hurl⟩, himg⟩, by linarith [hrec.1]⟩, hrec.2⟩, ?_⟩
      simp [hcomments, hCV]
    simp only [addComment, movieSave, Option.getD_some]
    rw [if_neg hcond, if_pos hlen, if_pos hMV]

/-- Witness for the amended C1 at the sample movie: rating 7 is rejected,
and an omitted rating equals an explicit rating 3. -/
theorem addComment_range_behavior_witness :
    addComment movieM0 1 "a" "good" (some 7) = .error (500, "ValidationError") ∧
    addComment movieM0 1 "a" "good" none = addComment movieM0 1 "a" "good" (some 3) :=
  ⟨(addComment_range_behavior movieM0 1 "a" "good" 7 (by decide) (by decide)
      (by decide)).1 (Or.inr (by norm_num)),
   (addComment_range_behavior movieM0 1 "a" "good" 3 (by decide) (by decide)
      (by decide)).2.1⟩

end Backend

namespace Backend

/-- C3 fails on the code as a statement about the favorites *list*: toggling
a present movie twice moves it from its original position to the end
(`[1, 2]` becomes `[2, 1]`), so the list is not returned to its original
state. -/
theorem toggleFavorite_twice_list_counterexample :
    (toggleFavorite (toggleFavorite [user7] [1, 2] 7 1).1 [1, 2] 7 1).1 =
      [{ user7 with favorites := [2, 1] }] ∧
    [({ user7 with favorites := [2, 1] } : User)] ≠ [user7] := by
  constructor <;> decide

/-- `find?` after updating the first match: when `f` does not change whether
`p` holds, the found element is the image of the originally found one. -/
theorem find_updateFirstP (p : User → Bool) (f : User → User)
    (hp : ∀ w, p (f w) = p w) :
    ∀ {l : List User} {u : User}, l.find? p = some u →
      (updateFirstP p f l).find? p = some (f u)
  | [], u, h => by simp at h
  | w :: ws, u, h => by
    cases hw : p w with
    | true =>
      rw [List.find?_cons_of_pos _ hw] at h
      cases h
      unfold updateFirstP
      rw [if_pos hw]
      exact List.find?_cons_of_pos _ (by rw [hp w]; exact hw)
    | false =>
      rw [List.find?_cons_of_neg _ (by simp [hw])] at h
      unfold updateFirstP
      rw [if_neg (by simp [hw])]
      rw [List.find?_cons_of_neg _ (by simp [hw])]
      exact find_updateFirstP p f hp h

end Backend

namespace Backend

/-- The single-toggle step, for an existing user and movie: the collection
becomes `updateFirstP` with erase-or-append on the found user's favorites. -/
theorem toggleFavorite_found (users : List User) (movieIds : List Nat) (uid mid : Nat)
    (u : User) (hu : users.find? (fun w => w.id == uid) = some u)
    (hmov : movieIds.contains mid = true) :
    (toggleFavorite users movieIds uid mid).1 =
      if u.favorites.contains mid then
        updateFirstP (fun w => w.id == uid)
          (fun w => { w with favorites := w.favorites.erase mid }) users
      else
        updateFirstP (fun w => w.id == uid)
          (fun w => { w with favorites := w.favorites ++ [mid] }) users := by
  simp only [toggleFavorite, hu]
  rw [if_pos hmov]
  cases hin : u.favorites.contains mid with
  | true => simp
  | false => simp

/-- C3 amended: for an existing user (with duplicate-free favorites, the only
lists the toggler itself ever produces) and an existing movie, toggling twice
yields a favorites list with exactly the original members — a permutation of
the original list — and the identical list whenever the movie was initially
absent (the first toggle appends it, the second removes that occurrence).
When it was initially present the id ends up moved to the end of the list,
so the membership state, though not the order, is restored. -/
theorem toggleFavorite_twice (users : List User) (movieIds : List Nat)
    (uid mid : Nat) (u : User)
    (hu : users.find? (fun w => w.id == uid) = some u)
    (hmov : movieIds.contains mid = true)
    (hnd : u.favorites.Nodup) :
    ∃ u', ((toggleFavorite (toggleFavorite users movieIds uid mid).1 movieIds uid mid).1).find?
        (fun w => w.id == uid) = some u' ∧
      u'.favorites.Perm u.favorites ∧
      (mid ∉ u.favorites → u'.favorites = u.favorites) := by
  cases hin : u.favorites.contains mid with
  | true =>
    have hmem : mid ∈ u.favorites := by simpa using hin
    have h1 := toggleFavorite_found users movieIds uid mid u hu hmov
    rw [if_pos hin] at h1
    have hfind1 : ((toggleFavorite users movieIds uid mid).1).find? (fun w => w.id == uid) =
        some { u with favorites := u.favorites.erase mid } := by
      rw [h1]
      exact find_updateFirstP (fun w => w.id == uid) (fun w => { w with favorites := w.favorites.erase mid })
        (fun w => rfl) hu
    have hnm2 : mid ∉ u.favorites.erase mid := hnd.not_mem_erase
    have h2 := toggleFavorite_found (toggleFavorite users movieIds uid mid).1 movieIds uid mid
      { u with favorites := u.favorites.erase mid } hfind1 hmov
    rw [if_neg (by simp [hnm2])] at h2
    have hfind2 : ((toggleFavorite (toggleFavorite users movieIds uid mid).1 movieIds uid
        mid).1).find? (fun w => w.id == uid) =
        some { u with favorites := u.favorites.erase mid ++ [mid] } := by
      rw [h2]
      exact find_updateFirstP (fun w => w.id == uid) (fun w => { w with favorites := w.favorites ++ [mid] })
        (fun w => rfl) hfind1
    refine ⟨_, hfind2, ?_, fun hno => absurd hmem hno⟩
    exact (List.perm_append_singleton _ _).trans (List.perm_cons_erase hmem).symm
  | false =>
    have hmem : mid ∉ u.favorites := by simpa using hin
    have h1 := toggleFavorite_found users movieIds uid mid u hu hmov
    rw [if_neg (by simp [hmem])] at h1
    have hfind1 : ((toggleFavorite users movieIds uid mid).1).find? (fun w => w.id == uid) =
        some { u with favorites := u.favorites ++ [mid] } := by
      rw [h1]
      exact find_updateFirstP (fun w => w.id == uid) (fun w => { w with favorites := w.favorites ++ [mid] })
        (fun w => rfl) hu
    have hin2 : (u.favorites ++ [mid]).contains mid = true := by simp
    have h2 := toggleFavorite_found (toggleFavorite users movieIds uid mid).1 movieIds uid mid
      { u with favorites := u.favorites ++ [mid] } hfind1 hmov
    rw [if_pos hin2] at h2
    have hfind2 : ((toggleFavorite (toggleFavorite users movieIds uid mid).1 movieIds uid
        mid).1).find? (fun w => w.id == uid) =
        some { u with favorites := (u.favorites ++ [mid]).erase mid } := by
      rw [h2]
      exact find_updateFirstP (fun w => w.id == uid) (fun w => { w with favorites := w.favorites.erase mid })
        (fun w => rfl) hfind1
    have herase : (u.favorites ++ [mid]).erase mid = u.favorites := by
      rw [List.erase_append_right _ hmem, List.erase_cons_head, List.append_nil]
    refine ⟨_, hfind2, ?_, fun _ => herase⟩
    rw [herase]

/-- Witness for the amended C3: toggling movie 4 (initially absent) twice on
the sample user restores the favorites list exactly. -/
theorem toggleFavorite_twice_witness :
    ∃ u', ((toggleFavorite (toggleFavorite [user7] [1, 2, 4] 7 4).1 [1, 2, 4] 7 4).1).find?
        (fun w => w.id == 7) = some u' ∧
      u'.favorites.Perm user7.favorites ∧
      (4 ∉ user7.favorites → u'.favorites = user7.favorites) :=
  toggleFavorite_twice [user7] [1, 2, 4] 7 4 user7 (by decide) (by decide) (by decide)

end Backend

namespace Backend

/-- A single import pass preserves distinct video URLs and only ever adds
movies with zero rating and no comments. -/
theorem importGo_preserves :
    ∀ (vs : List PexVideo) (cat : List Movie) (n : Nat), noDupUrls cat →
      noDupUrls (importGo cat vs n).1 ∧
      ∀ m ∈ (importGo cat vs n).1, m ∈ cat ∨ (m.rating = 0 ∧ m.comments = [])
  | [], cat, n, h => ⟨h, fun m hm => Or.inl hm⟩
  | v :: vs, cat, n, h => by
    unfold importGo
    cases hlink : v.videoFiles.head? with
    | none => exact importGo_preserves vs cat n h
    | some link =>
      dsimp only
      by_cases hex : cat.any (fun m => m.videoUrl == link) = true
      · rw [if_pos hex]
        exact importGo_preserves vs cat n h
      · rw [if_neg hex]
        by_cases hval : movieValid (mkImportMovie v link) = true
        · rw [if_pos hval]
          have hnotin : link ∉ cat.map Movie.videoUrl := by
            intro hmem
            obtain ⟨m, hm, hurl⟩ := List.mem_map.mp hmem
            exact hex (List.any_eq_true.mpr ⟨m, hm, by simp [hurl]⟩)
          have hnd' : noDupUrls (cat ++ [mkImportMovie v link]) := by
            unfold noDupUrls at h ⊢
            rw [List.map_append]
            refine List.nodup_append.mpr ⟨h, by simp, ?_⟩
            intro x hx hy
            rcases List.mem_map.mp hy with ⟨m2, hm2, hx2⟩
            rcases List.mem_singleton.mp hm2 with rfl
            rw [← hx2] at hx
            exact hnotin (by simpa [mkImportMovie] using hx)
          obtain ⟨hnodup, hmem⟩ := importGo_preserves vs (cat ++ [mkImportMovie v link]) (n + 1) hnd'
          refine ⟨hnodup, fun m hm => ?_⟩
          rcases hmem m hm with hin | hshape
          · rcases List.mem_append.mp hin with hin | hin
            · exact Or.inl hin
            · rcases List.mem_singleton.mp hin with rfl
              exact Or.inr ⟨rfl, rfl⟩
          · exact Or.inr hshape
        · rw [if_neg hval]
          exact ⟨h, fun m hm => Or.inl hm⟩

/-- C4: across any number of import runs, the catalog keeps pairwise-distinct
video URLs (entries whose first link already exists, or that lack a link, are
skipped), and every movie not in the original catalog was persisted with
rating 0 and an empty comment list. -/
theorem importFromPexels_no_duplicates (cat : List Movie) (runs : List (List PexVideo))
    (h : noDupUrls cat) :
    noDupUrls (runs.foldl (fun c vs => (importFromPexels c vs).1) cat) ∧
    ∀ m ∈ runs.foldl (fun c vs => (importFromPexels c vs).1) cat,
      m ∈ cat ∨ (m.rating = 0 ∧ m.comments = []) := by
  induction runs generalizing cat with
  | nil => exact ⟨h, fun m hm => Or.inl hm⟩
  | cons vs runs ih =>
    have hstep := importGo_preserves vs cat 0 h
    obtain ⟨hnd, hmem⟩ := ih (importFromPexels cat vs).1 hstep.1
    refine ⟨hnd, fun m hm => ?_⟩
    rcases hmem m hm with hin | hshape
    · rcases hstep.2 m hin with hin' | hshape'
      · exact Or.inl hin'
      · exact Or.inr hshape'
    · exact Or.inr hshape

/-- Witness for C4: importing the same two-video response twice starting from
an empty catalog. -/
theorem importFromPexels_no_duplicates_witness :
    noDupUrls (List.foldl (fun c vs => (importFromPexels c vs).1) []
      [[⟨["l1"], ["p"], some "U", some 3⟩, ⟨["l1"], ["p"], some "U", some 3⟩],
       [⟨["l1"], ["p"], some "U", some 3⟩]]) ∧
    ∀ m ∈ List.foldl (fun c vs => (importFromPexels c vs).1) ([] : List Movie)
      [[⟨["l1"], ["p"], some "U", some 3⟩, ⟨["l1"], ["p"], some "U", some 3⟩],
       [⟨["l1"], ["p"], some "U", some 3⟩]],
      m ∈ ([] : List Movie) ∨ (m.rating = 0 ∧ m.comments = []) :=
  importFromPexels_no_duplicates [] _ (by simp [noDupUrls])

end Backend

namespace Backend

/-- C5: when every user whose stored reset token equals the supplied token has
an expiry that is not in the future (or no expiry at all), `resetPassword`
answers 400 "Token inválido o expirado" and leaves the collection — in
particular every stored password — unchanged. -/
theorem resetPassword_expired_rejected (users : List User) (now : Nat)
    (token newPassword : String)
    (htok : token ≠ "") (hpw : newPassword ≠ "")
    (hexp : ∀ u ∈ users, u.resetPasswordToken = some token →
      (match u.resetPasswordExpires with
       | some e => e ≤ now
       | none => True)) :
    resetPassword users now token newPassword =
      (users, 400, "Token inválido o expirado") := by
  have hfind : users.find? (resetQueryPred token now) = none := by
    rw [List.find?_eq_none]
    intro u hu hpred
    simp only [resetQueryPred, Bool.and_eq_true] at hpred
    obtain ⟨htk, hex⟩ := hpred
    have htk' : u.resetPasswordToken = some token := by simpa using htk
    have hle := hexp u hu htk'
    cases hexpField : u.resetPasswordExpires with
    | none => rw [hexpField] at hex; simp at hex
    | some e =>
      rw [hexpField] at hex hle
      simp only [decide_eq_true_eq] at hex
      exact absurd hex (not_lt.mpr hle)
  unfold resetPassword
  rw [if_neg (by simp [htok, hpw]), hfind]

/-- Witness for C5: the stored token matches but expired 60 ms ago. -/
theorem resetPassword_expired_rejected_witness :
    resetPassword [⟨7, "A", "B", 20, "a@b.c", hashPw "Abcdef1$", some "tok", some 50, [1, 2]⟩]
      110 "tok" "Newpass1$" =
      ([⟨7, "A", "B", 20, "a@b.c", hashPw "Abcdef1$", some "tok", some 50, [1, 2]⟩],
       400, "Token inválido o expirado") :=
  resetPassword_expired_rejected _ 110 "tok" "Newpass1$" (by decide) (by decide)
    (by
      intro u hu htk
      rcases List.mem_singleton.mp hu with rfl
      exact (by decide : (50 : Nat) ≤ 110))

/-- Membership after `updateFirstP`: an element of the updated collection is
an original element or the image of one. -/
theorem mem_updateFirstP (p : User → Bool) (f : User → User) :
    ∀ {l : List User} {w : User}, w ∈ updateFirstP p f l →
      w ∈ l ∨ ∃ v, v ∈ l ∧ w = f v
  | [], w, h => by simp [updateFirstP] at h
  | x :: xs, w, h => by
    unfold updateFirstP at h
    split at h
    · rcases List.mem_cons.mp h with rfl | h'
      · exact Or.inr ⟨x, List.mem_cons_self _ _, rfl⟩
      · exact Or.inl (List.mem_cons_of_mem _ h')
    · rcases List.mem_cons.mp h with rfl | h'
      · exact Or.inl (List.mem_cons_self _ _)
      · rcases mem_updateFirstP p f h' with h'' | ⟨v, hv, rfl⟩
        · exact Or.inl (List.mem_cons_of_mem _ h'')
        · exact Or.inr ⟨v, List.mem_cons_of_mem _ hv, rfl⟩

/-- Every password-flow request preserves the reset-pair invariant for every
stored user: `recoverPassword` sets both fields, `resetPassword` clears both,
and the other flows never touch them. -/
theorem pairInv_applyUserOp (users : List User) (op : UserOp)
    (h : ∀ u ∈ users, pairInv u) : ∀ u ∈ applyUserOp users op, pairInv u := by
  cases op with
  | create fn ln age em pw newId =>
    intro u hu
    simp only [applyUserOp] at hu
    unfold createUser at hu
    by_cases hreq : (decide (fn = "") || decide (ln = "") || decide (age = 0) ||
        decide (em = "") || decide (pw = "")) = true
    · rw [if_pos hreq] at hu
      exact h u hu
    · rw [if_neg hreq] at hu
      cases hf : users.find? (fun w => w.email == em) with
      | some v => rw [hf] at hu; exact h u hu
      | none =>
        rw [hf] at hu
        dsimp only at hu
        by_cases hval : userValid (strTrim fn) (strTrim ln) age (strLower em) pw = true
        · rw [if_pos hval] at hu
          rcases List.mem_append.mp hu with hu | hu
          · exact h u hu
          · rcases List.mem_singleton.mp hu with rfl
            exact rfl
        · rw [if_neg hval] at hu
          exact h u hu
  | recover em tok now =>
    intro u hu
    simp only [applyUserOp] at hu
    unfold recoverPassword at hu
    by_cases hreq : em = ""
    · rw [if_pos hreq] at hu
      exact h u hu
    · rw [if_neg hreq] at hu
      cases hf : users.find? (fun w => w.email == em) with
      | none => rw [hf] at hu; exact h u hu
      | some v =>
        rw [hf] at hu
        rcases mem_updateFirstP _ _ hu with hu' | ⟨v', _, rfl⟩
        · exact h u hu'
        · exact rfl
  | reset now tok npw =>
    intro u hu
    simp only [applyUserOp] at hu
    unfold resetPassword at hu
    by_cases hreq : (decide (tok = "") || decide (npw = "")) = true
    · rw [if_pos hreq] at hu
      exact h u hu
    · rw [if_neg hreq] at hu
      cases hf : users.find? (resetQueryPred tok now) with
      | none => rw [hf] at hu; exact h u hu
      | some v =>
        rw [hf] at hu
        rcases mem_updateFirstP _ _ hu with hu' | ⟨v', _, rfl⟩
        · exact h u hu'
        · exact rfl
  | toggle movieIds uid mid =>
    intro u hu
    simp only [applyUserOp] at hu
    unfold toggleFavorite at hu
    cases hf : users.find? (fun w => w.id == uid) with
    | none => rw [hf] at hu; exact h u hu
    | some v =>
      rw [hf] at hu
      dsimp only at hu
      by_cases hc1 : movieIds.contains mid = true
      · rw [if_pos hc1] at hu
        by_cases hc2 : v.favorites.contains mid = true
        · rw [if_pos hc2] at hu
          rcases mem_updateFirstP _ _ hu with hu' | ⟨v', hv', rfl⟩
          · exact h u hu'
          · exact h v' hv'
        · rw [if_neg hc2] at hu
          rcases mem_updateFirstP _ _ hu with hu' | ⟨v', hv', rfl⟩
          · exact h u hu'
          · exact h v' hv'
      · rw [if_neg hc1] at hu
        exact h u hu
  | delete uid =>
    intro u hu
    simp only [applyUserOp] at hu
    unfold deleteUser at hu
    cases hf : users.find? (fun w => w.id == uid) with
    | none => rw [hf] at hu; exact h u hu
    | some v =>
      rw [hf] at hu
      exact h u (List.mem_of_mem_eraseP hu)

/-- C6 amended: along every sequence of create / recover / reset / toggle /
delete requests, the reset token and expiry stay set-together-or-clear-
together for every stored user. -/
theorem pairInv_flow (users : List User) (ops : List UserOp)
    (h : ∀ u ∈ users, pairInv u) :
    ∀ u ∈ ops.foldl applyUserOp users, pairInv u := by
  induction ops generalizing users with
  | nil => exact h
  | cons op ops ih => exact ih _ (pairInv_applyUserOp users op h)

/-- Witness for the amended C6: after a full recover-reset-toggle-create-
delete run starting from the sample user, the one remaining stored user (the
freshly created one) satisfies the pair invariant. -/
theorem pairInv_flow_witness :
    pairInv ⟨8, "X", "Y", 30, "n@b.c", hashPw "Abcdef1$", none, none, []⟩ :=
  pairInv_flow [user7]
    [UserOp.recover "a@b.c" "tok" 5, UserOp.reset 6 "tok" "Newpass1$",
     UserOp.toggle [1, 2] 7 1, UserOp.create "X" "Y" 30 "n@b.c" "Abcdef1$" 8,
     UserOp.delete 7] (by decide)
    ⟨8, "X", "Y", 30, "n@b.c", hashPw "Abcdef1$", none, none, []⟩ (by decide)

/-- C6 fails on the code as stated over all reachable states: the profile
update endpoint copies arbitrary client fields into the document, so sending
`resetPasswordToken` alone sets the token without an expiry. -/
theorem updateUser_breaks_pairInv :
    (updateUser [user7] 7 { resetPasswordToken := some "x" }).1 =
      [{ user7 with resetPasswordToken := some "x" }] ∧
    ¬ pairInv { user7 with resetPasswordToken := some "x" } := by
  constructor <;> decide

end Backend

namespace Backend

/-- C7: both login failure causes — unknown email, and known email with a
password that does not match the stored hash — produce the identical response
`(401, "Invalid credentials")`, so they are indistinguishable to the caller. -/
theorem loginUser_generic_on_failure (users : List User) (email password : String)
    (he : email ≠ "") (hp : password ≠ "") :
    (users.find? (fun u => u.email == email) = none →
      loginUser users email password = (401, "Invalid credentials")) ∧
    (∀ u, users.find? (fun u => u.email == email) = some u →
      bcryptCompare password u.password = false →
      loginUser users email password = (401, "Invalid credentials")) := by
  constructor
  · intro hfind
    unfold loginUser
    rw [if_neg (by simp [he, hp]), hfind]
  · intro u hfind hcmp
    unfold loginUser
    rw [if_neg (by simp [he, hp]), hfind]
    dsimp only
    rw [if_neg (by simp [hcmp])]

/-- Witness for C7: an unregistered email and a wrong password at the sample
user return literally the same response. -/
theorem loginUser_generic_on_failure_witness :
    loginUser [user7] "zz@b.c" "Abcdef1$" = (401, "Invalid credentials") ∧
    loginUser [user7] "a@b.c" "wrong" = (401, "Invalid credentials") :=
  ⟨(loginUser_generic_on_failure [user7] "zz@b.c" "Abcdef1$" (by decide) (by decide)).1
      (by decide),
   (loginUser_generic_on_failure [user7] "a@b.c" "wrong" (by decide) (by decide)).2
      user7 (by decide) (by decide)⟩

/-- C8: the middleware's outcome trichotomy — a missing or non-bearer header
is the 403 "no token" outcome, a bearer header whose token fails verification
is the distinct 401 "invalid or expired" outcome, and a verifiable token lets
the request through with the decoded payload attached. -/
theorem verifyToken_trichotomy (header : Option String)
    (jwtVerify : String → Option String) :
    ((header = none ∨ ∃ s, header = some s ∧ hasBearerScheme s = false) →
      verifyToken header jwtVerify = .reject 403 "Access denied. No token provided.") ∧
    (∀ s, header = some s → hasBearerScheme s = true →
      (jwtVerify (bearerToken s) = none →
        verifyToken header jwtVerify = .reject 401 "Invalid or expired token") ∧
      (∀ p, jwtVerify (bearerToken s) = some p →
        verifyToken header jwtVerify = .allow p)) := by
  constructor
  · rintro (rfl | ⟨s, rfl, hb⟩)
    · rfl
    · unfold verifyToken
      dsimp only
      rw [if_pos (by simp [hb])]
  · rintro s rfl hb
    constructor
    · intro hv
      unfold verifyToken
      dsimp only
      rw [if_neg (by simp [hb]), hv]
    · intro p hv
      unfold verifyToken
      dsimp only
      rw [if_neg (by simp [hb]), hv]

/-- Witness for C8: all three outcomes at concrete headers with the identity
verifier. -/
theorem verifyToken_trichotomy_witness :
    verifyToken (some "Bearer abc") (fun t => some t) = .allow "abc" ∧
    verifyToken (some "Token abc") (fun t => some t) =
      .reject 403 "Access denied. No token provided." ∧
    verifyToken (some "Bearer abc") (fun _ => none) =
      .reject 401 "Invalid or expired token" :=
  ⟨((verifyToken_trichotomy (some "Bearer abc") (fun t => some t)).2 "Bearer abc" rfl
      (by decide)).2 "abc" (by decide),
   (verifyToken_trichotomy (some "Token abc") (fun t => some t)).1
      (Or.inr ⟨"Token abc", rfl, by decide⟩),
   ((verifyToken_trichotomy (some "Bearer abc") (fun _ => none)).2 "Bearer abc" rfl
      (by decide)).1 rfl⟩

/-- C10: a `createUser` call with all five fields present whose email already
belongs to a stored user answers 409 "Correo ya registrado" and leaves the
collection unchanged, an outcome distinct from the 400 missing-fields
response (shown on the same data with `firstName` blank). -/
theorem createUser_duplicate_email (users : List User) (fn ln : String) (age : Nat)
    (em pw : String) (newId : Nat)
    (h1 : fn ≠ "") (h2 : ln ≠ "") (h3 : age ≠ 0) (h4 : em ≠ "") (h5 : pw ≠ "")
    (hdup : users.any (fun u => u.email == em) = true) :
    createUser users fn ln age em pw newId = (users, 409, "Correo ya registrado") ∧
    createUser users "" ln age em pw newId =
      (users, 400, "Por favor rellenar todos los campos") ∧
    ((409 : Nat), "Correo ya registrado") ≠
      ((400 : Nat), "Por favor rellenar todos los campos") := by
  refine ⟨?_, ?_, by decide⟩
  · unfold createUser
    rw [if_neg (by simp [h1, h2, h3, h4, h5])]
    cases hf : users.find? (fun u => u.email == em) with
    | none =>
      obtain ⟨u, hu, he⟩ := List.any_eq_true.mp hdup
      exact absurd he (List.find?_eq_none.mp hf u hu)
    | some u => rfl
  · unfold createUser
    rw [if_pos (by simp)]

/-- Witness for C10 at the sample user's email. -/
theorem createUser_duplicate_email_witness :
    createUser [user7] "X" "Y" 30 "a@b.c" "Abcdef1$" 8 =
      ([user7], 409, "Correo ya registrado") ∧
    createUser [user7] "" "Y" 30 "a@b.c" "Abcdef1$" 8 =
      ([user7], 400, "Por favor rellenar todos los campos") ∧
    ((409 : Nat), "Correo ya registrado") ≠
      ((400 : Nat), "Por favor rellenar todos los campos") :=
  createUser_duplicate_email [user7] "X" "Y" 30 "a@b.c" "Abcdef1$" 8
    (by decide) (by decide) (by decide) (by decide) (by decide) (by decide)

end Backend

namespace Backend

/-- Marking a default track changes no language. -/
theorem markAt_map_lang : ∀ (i : Nat) (ts : List SubtitleItem),
    (markAt i ts).map SubtitleItem.lang = ts.map SubtitleItem.lang
  | _, [] => by simp [markAt]
  | 0, _ :: _ => rfl
  | n + 1, t :: ts => by simp [markAt, markAt_map_lang n ts]

/-- Marking a default track changes no language, label or path. -/
theorem markAt_map_triple : ∀ (i : Nat) (ts : List SubtitleItem),
    (markAt i ts).map (fun t => (t.lang, t.label, t.src)) =
      ts.map (fun t => (t.lang, t.label, t.src))
  | _, [] => by simp [markAt]
  | 0, _ :: _ => rfl
  | n + 1, t :: ts => by simp [markAt, markAt_map_triple n ts]

/-- The element at the marked index is the original one with the flag set. -/
theorem markAt_getq : ∀ (i : Nat) (ts : List SubtitleItem),
    (markAt i ts)[i]? = ts[i]?.map (fun t => { t with default := true })
  | _, [] => by simp [markAt]
  | 0, t :: ts => by simp [markAt]
  | i + 1, t :: ts => by simp [markAt, markAt_getq i ts]

/-- Marking one position of an all-unmarked list yields exactly one marked
track. -/
theorem countP_markAt : ∀ (ts : List SubtitleItem) (i : Nat), i < ts.length →
    (∀ t ∈ ts, t.default = false) →
    (markAt i ts).countP (fun t => t.default) = 1
  | [], i, hi, _ => absurd hi (by simp)
  | t :: ts, 0, _, hall => by
    have h0 : ts.countP (fun t => t.default) = 0 :=
      List.countP_eq_zero.mpr (fun x hx => by simp [hall x (List.mem_cons_of_mem _ hx)])
    simp [markAt, List.countP_cons, h0]
  | t :: ts, i + 1, hi, hall => by
    have ht : t.default = false := hall t (List.mem_cons_self _ _)
    have hrec := countP_markAt ts i (by simpa using hi)
      (fun x hx => hall x (List.mem_cons_of_mem _ hx))
    simp [markAt, List.countP_cons, ht, hrec]

/-- Every scanned track starts with the flag unset. -/
theorem scanTracks_default_false (movieId : String) (entries : List String) :
    ∀ t ∈ scanTracks movieId entries, t.default = false := by
  intro t ht
  simp only [scanTracks, List.mem_filterMap] at ht
  obtain ⟨fn, _, hmap⟩ := ht
  rcases Option.map_eq_some'.mp hmap with ⟨lang, _, rfl⟩
  rfl

/-- A language-indexed existential is invariant under marking. -/
theorem exists_lang_markAt (Q : String → Prop) (i : Nat) (ts : List SubtitleItem) :
    (∃ t ∈ markAt i ts, Q t.lang) ↔ ∃ t ∈ ts, Q t.lang := by
  constructor
  · rintro ⟨t, ht, hq⟩
    have hl : t.lang ∈ (markAt i ts).map SubtitleItem.lang := List.mem_map_of_mem _ ht
    rw [markAt_map_lang] at hl
    rcases List.mem_map.mp hl with ⟨t', ht', hteq⟩
    exact ⟨t', ht', by rw [hteq]; exact hq⟩
  · rintro ⟨t, ht, hq⟩
    have hl : t.lang ∈ ts.map SubtitleItem.lang := List.mem_map_of_mem _ ht
    rw [← markAt_map_lang i ts] at hl
    rcases List.mem_map.mp hl with ⟨t', ht', hteq⟩
    exact ⟨t', ht', by rw [hteq]; exact hq⟩

/-- The scanned triples are exactly one per matching directory entry. -/
theorem scanTracks_map_triple (movieId : String) (entries : List String) :
    (scanTracks movieId entries).map (fun t => (t.lang, t.label, t.src)) =
      entries.filterMap (fun fn => (matchSub movieId fn).map
        (fun lang => (lang, labelFromLang lang, "/subtitles/" ++ fn))) := by
  unfold scanTracks
  rw [List.map_filterMap]
  congr 1
  funext fn
  cases matchSub movieId fn <;> rfl

/-- The controller output is always the scanned list with the default mark. -/
theorem buildSubtitles_eq (movieId : String) (entries : List String) :
    buildSubtitlesForResponse movieId true entries =
      markAt (defaultIdx (scanTracks movieId entries)) (scanTracks movieId entries) := by
  unfold buildSubtitlesForResponse
  cases hscan : scanTracks movieId entries with
  | nil => simp [markAt]
  | cons t ts => rfl

/-- On a movie id free of regex metacharacters, matching the interpolated
id is exactly matching it as literal text. -/
theorem patPrefixMatches_safe : ∀ (ps cs : List Char),
    ps.all (fun c => !regexMetaChar c) = true →
    patPrefixMatches ps cs =
      if cs.take ps.length = ps then some (cs.drop ps.length) else none
  | [], cs, _ => by simp [patPrefixMatches]
  | p :: ps, [], h => by simp [patPrefixMatches]
  | p :: ps, c :: cs, h => by
    have hp : (!regexMetaChar p) = true :=
      List.all_eq_true.mp h p (List.mem_cons_self _ _)
    have hpdot : p ≠ '.' := by
      intro hd
      rw [hd] at hp
      simp [regexMetaChar] at hp
    have hps : ps.all (fun c => !regexMetaChar c) = true := by
      rw [List.all_cons, Bool.and_eq_true] at h
      exact h.2
    unfold patPrefixMatches
    rw [show patChar p c = (p == c) from by simp [patChar, hpdot]]
    by_cases hpc : p = c
    · subst hpc
      rw [if_pos (by simp), patPrefixMatches_safe ps cs hps]
      simp only [List.length_cons, List.take_succ_cons, List.drop_succ_cons,
        List.cons.injEq, true_and]
    · rw [if_neg (by simp [hpc]),
        if_neg (by
          simp only [List.length_cons, List.take_succ_cons, List.cons.injEq]
          intro heq
          exact hpc heq.1.symm)]

/-- On a movie id free of regex metacharacters, the source matcher and the
spec's literal-pattern matcher agree. -/
theorem matchSub_safe (movieId filename : String)
    (hsafe : movieId.toList.all (fun c => !regexMetaChar c) = true) :
    matchSub movieId filename = specMatchSub movieId filename := by
  unfold matchSub specMatchSub
  rw [patPrefixMatches_safe movieId.toList filename.toList hsafe]
  by_cases h : filename.toList.take movieId.toList.length = movieId.toList
  · rw [if_pos h, if_pos h]
  · rw [if_neg h, if_neg h]

/-- C9 fails on the code for movie ids containing regex metacharacters: the
id is interpolated into the pattern unescaped, so for movie id `"a.b"` the
dot acts as a wildcard and the file `"axb.en.vtt"` — which does not carry
the literal name `<movieId>.<lang>.vtt` for any language — still produces a
track descriptor (and even gets the default mark). -/
theorem buildSubtitles_metachar_counterexample :
    buildSubtitlesForResponse "a.b" true ["axb.en.vtt"] =
      [⟨"en", "English", "/subtitles/axb.en.vtt", true⟩] ∧
    specMatchSub "a.b" "axb.en.vtt" = none := by
  constructor <;> decide

/-- C9 amended: for every movie id free of regex metacharacters (actual
Mongo ObjectIds are hexadecimal, hence metacharacter-free), the response has
exactly one track (language, label, path) per file literally named
`<movieId>.<lang>.vtt`, is empty when no file matches, and when non-empty
carries exactly one default mark, placed on a Spanish track when one exists
and on the first track otherwise. -/
theorem buildSubtitlesForResponse_spec (movieId : String) (entries : List String)
    (hsafe : movieId.toList.all (fun c => !regexMetaChar c) = true) :
    ((buildSubtitlesForResponse movieId true entries).map (fun t => (t.lang, t.label, t.src)) =
       entries.filterMap (fun fn => (specMatchSub movieId fn).map
         (fun lang => (lang, labelFromLang lang, "/subtitles/" ++ fn)))) ∧
    ((∀ fn ∈ entries, specMatchSub movieId fn = none) →
       buildSubtitlesForResponse movieId true entries = []) ∧
    (buildSubtitlesForResponse movieId true entries ≠ [] →
       (buildSubtitlesForResponse movieId true entries).countP (fun t => t.default) = 1) ∧
    ((∃ t ∈ buildSubtitlesForResponse movieId true entries, strLower t.lang = "es") →
       ∃ t ∈ buildSubtitlesForResponse movieId true entries,
         t.default = true ∧ strLower t.lang = "es") ∧
    ((¬ ∃ t ∈ buildSubtitlesForResponse movieId true entries, strLower t.lang = "es") →
       ∀ t, (buildSubtitlesForResponse movieId true entries).head? = some t →
         t.default = true) := by
  refine ⟨?_, ?_, ?_, ?_, ?_⟩
  · rw [buildSubtitles_eq, markAt_map_triple, scanTracks_map_triple]
    exact List.filterMap_congr (fun fn _ => by rw [matchSub_safe movieId fn hsafe])
  · intro hall
    have hscan0 : scanTracks movieId entries = [] := by
      simp only [scanTracks, List.filterMap_eq_nil_iff]
      intro fn hfn
      rw [matchSub_safe movieId fn hsafe, hall fn hfn]
      rfl
    rw [buildSubtitles_eq, hscan0]
    simp [markAt]
  · intro hne
    rw [buildSubtitles_eq] at hne ⊢
    have hs : scanTracks movieId entries ≠ [] := by
      intro h0
      rw [h0] at hne
      simp [markAt] at hne
    exact countP_markAt _ _
      (by
        unfold defaultIdx
        cases hidx : (scanTracks movieId entries).findIdx?
            (fun t => strLower t.lang == "es") with
        | none => simpa using List.length_pos.mpr hs
        | some i => exact (List.findIdx?_eq_some_iff_getElem.mp hidx).1)
      (scanTracks_default_false movieId entries)
  · intro hes
    rw [buildSubtitles_eq] at hes ⊢
    have hes' : ∃ t ∈ scanTracks movieId entries, strLower t.lang = "es" :=
      (exists_lang_markAt (fun s => strLower s = "es") _ _).mp hes
    obtain ⟨t0, ht0, hq0⟩ := hes'
    have hsome : ((scanTracks movieId entries).findIdx?
        (fun t => strLower t.lang == "es")).isSome := by
      rw [List.findIdx?_isSome]
      exact List.any_eq_true.mpr ⟨t0, ht0, by simp [hq0]⟩
    obtain ⟨i, hidx⟩ := Option.isSome_iff_exists.mp hsome
    obtain ⟨hlt, hp, _⟩ := List.findIdx?_eq_some_iff_getElem.mp hidx
    have hdi : defaultIdx (scanTracks movieId entries) = i := by
      unfold defaultIdx
      rw [hidx]
    have hget : (markAt (defaultIdx (scanTracks movieId entries))
        (scanTracks movieId entries))[i]? =
        some { (scanTracks movieId entries).get ⟨i, hlt⟩ with default := true } := by
      rw [hdi, markAt_getq, List.getElem?_eq_getElem hlt]
      rfl
    refine ⟨_, List.getElem?_mem hget, rfl, ?_⟩
    simpa using hp
  · intro hnes t hhead
    rw [buildSubtitles_eq] at hnes hhead
    have hnes' : ¬ ∃ t ∈ scanTracks movieId entries, strLower t.lang = "es" :=
      fun hex => hnes ((exists_lang_markAt (fun s => strLower s = "es") _ _).mpr hex)
    have hnone : (scanTracks movieId entries).findIdx?
        (fun t => strLower t.lang == "es") = none := by
      rw [← Option.not_isSome_iff_eq_none, List.findIdx?_isSome]
      intro hany
      obtain ⟨t', ht', hp'⟩ := List.any_eq_true.mp hany
      exact hnes' ⟨t', ht', by simpa using hp'⟩
    have hdi : defaultIdx (scanTracks movieId entries) = 0 := by
      unfold defaultIdx
      rw [hnone]
    rw [hdi] at hhead
    cases hscan : scanTracks movieId entries with
    | nil => rw [hscan] at hhead; simp [markAt] at hhead
    | cons t1 ts1 =>
      rw [hscan] at hhead
      simp only [markAt, List.head?_cons, Option.some.injEq] at hhead
      rw [← hhead]

end Backend

namespace Backend

/-- Witness for C9: with an English and a Spanish file present plus a file of
another movie, the Spanish track carries the single default mark. -/
theorem buildSubtitlesForResponse_spec_witness :
    ∃ t ∈ buildSubtitlesForResponse "m" true ["m.en.vtt", "m.es.vtt", "x.fr.vtt"],
      t.default = true ∧ strLower t.lang = "es" :=
  (buildSubtitlesForResponse_spec "m" ["m.en.vtt", "m.es.vtt", "x.fr.vtt"]
    (by decide)).2.2.2.1 (by decide)

end Backend
